import Mathlib

/-!
Verification of the niagara-moduledev path resolver.

This file gives a shallow embedding of the resolution core:

* the identifier parser (`getModulePath`, `getModuleFileInfo` in
  `lib/moduledev.js`, lines 88-181),
* the zip helper (`lib/util/file.js`, first part: `retrieveFromZip`,
  `writeTempFile`, `writeTempDirectory`, `normalized`,
  `getTmpFileFromJarPath`),
* the `Resolver` (`lib/util/file.js`, second part:
  `modulePathToModuleDev`, `getTmpFileFromModuleInfo`, `urlToFilePath`,
  `arrayToFilePath`, `toFilePath`, `getFilePath`, `getRequireJsPaths`,
  `getModuleName`, `getSrcFolder`, `stripExtension`,
  `resolveModulePath`).

The file system is a parameter (`Env`): a registry mapping, a niagara
home, the set of readable dev-directory paths, and the readable jar
archives with their entries.  Mutable state (the resolver's
`filePathCache` and the shared temp directory written by extraction) is
passed explicitly (`St`).  Asynchronous promise chains are sequentialized;
a JS value thrown synchronously (the parser's `throw` of a string, or the
`TypeError` from calling `.then` on `undefined`) is a distinguished
outcome constructor, separate from the callback being invoked.

Strings are modeled as `String` over `List Char` (JS strings are UTF-16
code-unit sequences; all inputs considered here are ASCII).  Node's
`path` functions are modeled for forward-slash separated, dot-segment
free paths: `path.join` concatenates with `/`, `path.resolve` of a single
clean argument is the identity, and `path.normalize` composed with the
trailing-separator strip of `normalized` collapses repeated separators
and drops a trailing one.  The process-lifetime temporary directory
created by `temp.mkdir` is the opaque constant `TMP_ROOT`.
-/

deriving instance DecidableEq for Except

namespace NiagaraModuledev

/-! ## String helpers (JS string primitives on `List Char`) -/

/-- First index of a character in a char list, JS `String#indexOf` without
the `-1` encoding. -/
def charIndex : List Char → Char → Option Nat
  | [], _ => none
  | c :: cs, t => if c = t then some 0 else (charIndex cs t).map (· + 1)

/-- JS `String#indexOf(c)`: `-1` when absent. -/
def jsIndexOf (s : String) (c : Char) : Int :=
  match charIndex s.data c with
  | some n => (n : Int)
  | none => -1

/-- Does the second list begin with the first? -/
def listStarts : List Char → List Char → Bool
  | [], _ => true
  | _ :: _, [] => false
  | p :: ps, c :: cs => p = c && listStarts ps cs

/-- JS `String#startsWith` / regex `^lit`. -/
def sStarts (s pat : String) : Bool := listStarts pat.data s.data

/-- JS regex `lit$` (ends-with test). -/
def sEnds (s pat : String) : Bool := listStarts pat.data.reverse s.data.reverse

/-- JS `String#substring(n)` (drop the first `n` code units). -/
def sDrop (s : String) (n : Nat) : String := ⟨s.data.drop n⟩

/-- JS `String#substring(0, n)` (take the first `n` code units). -/
def sTake (s : String) (n : Nat) : String := ⟨s.data.take n⟩

/-- JS `String#length`. -/
def sLen (s : String) : Nat := s.data.length

/-- JS word character (`\w`): ASCII letter, digit or underscore. -/
def isWordChar (c : Char) : Bool := c.isAlphanum || c = '_'

/-! ## Path model -/

/-- Accumulating splitter behind `segsCh`; `cur` is the reversed
current segment. -/
def segsChAux (cur : List Char) : List Char → List (List Char)
  | [] => if cur.isEmpty then [] else [cur.reverse]
  | c :: cs =>
    if c = '/' then
      (if cur.isEmpty then segsChAux [] cs else cur.reverse :: segsChAux [] cs)
    else segsChAux (c :: cur) cs

/-- Segments of a slash-separated path: maximal runs of non-`/`
characters.  Empty segments produced by repeated, leading or trailing
separators disappear. -/
def segsCh (l : List Char) : List (List Char) := segsChAux [] l

/-- Rejoin path segments with single separators. -/
def joinSegs : List (List Char) → List Char
  | [] => []
  | [s] => s
  | s :: s₂ :: rest => s ++ '/' :: joinSegs (s₂ :: rest)

/-- `normalized` of `lib/util/file.js` (lines 105-108):
`path.normalize(p).replace(/[\/\\]$/, '')`, modeled for forward-slash,
dot-segment free relative paths: collapse repeated separators, drop
leading and trailing ones. -/
def normalized (p : String) : String := ⟨joinSegs (segsCh p.data)⟩

/-- Node `path.join(a, b)` for clean, nonempty arguments. -/
def pathJoin (a b : String) : String := a ++ "/" ++ b

/-- Node `path.resolve(target, rel)` for a clean relative or absolute
`rel`: an absolute `rel` wins, an empty `rel` returns the target. -/
def pathResolve2 (target rel : String) : String :=
  if sStarts rel "/" then rel
  else if rel = "" then target
  else target ++ "/" ++ rel

/-! ## Data model -/

/-- One entry of a zip/jar archive as exposed by `adm-zip`. -/
structure ZipEntry where
  entryName : String
  isDirectory : Bool
  data : String
deriving Repr, DecidableEq

/-- An archive is its entry list (in archive order). -/
abbrev Archive := List ZipEntry

/-- `FileInfo` of `lib/util/file.js` (lines 13-17). -/
structure FileInfo where
  path : String
  isDirectory : Bool
deriving Repr, DecidableEq

/-- `ModuleFileInfo` of `lib/moduledev.js` (lines 80-86): full
prefix-stripped path, module name, in-module file path. -/
structure ModuleFileInfo where
  fullPath : String
  name : String
  path : String
deriving Repr, DecidableEq

/-- First-match association-list lookup (JS object property read). -/
def lookupA {α : Type} : List (String × α) → String → Option α
  | [], _ => none
  | (k, v) :: rest, q => if k = q then some v else lookupA rest q

/-- Files written to the shared temp directory: path to contents.
Earlier entries shadow later ones on lookup; writes are modeled below. -/
abbrev Writes := List (String × String)

/-- The world the resolver runs against: the parsed
`moduledev.properties` registry, `niagara_home`, the readable
dev-directory file paths, and the readable jars at their paths. -/
structure Env where
  reg : List (String × String)
  niagaraHome : String
  devFiles : List String
  jars : List (String × Archive)
deriving Repr, DecidableEq

/-- Mutable state of one `Resolver` instance: the `filePathCache`
(newest binding first) and the contents of the shared temp directory. -/
structure St where
  cache : List (String × String)
  tmp : Writes
deriving Repr, DecidableEq

/-! ## Archive extraction (`lib/util/file.js`, first part, plus the
`adm-zip 0.4` semantics of the calls it makes) -/

/-- The process-lifetime temporary directory of `getTmpDir`
(lines 20-23), an opaque name. -/
def TMP_ROOT : String := "niagara-moduledev-tmp"

/-- `adm-zip` `writeFileTo(path, content, overwrite)` with
`overwrite = false`: an existing file is left alone. -/
def writeFileTo (w : Writes) (p d : String) : Writes :=
  if (lookupA w p).isSome then w else (p, d) :: w

/-- Apply a list of (path, data) write attempts in order, each with
`overwrite = false`. -/
def applyWrites (ws : List (String × String)) (w : Writes) : Writes :=
  ws.foldl (fun acc pd => writeFileTo acc pd.1 pd.2) w

/-- `adm-zip` `getEntryChildren`: entries whose name begins with the
directory entry's name (`indexOf(...) === 0`). -/
def getEntryChildren (zip : Archive) (entryName : String) : Archive :=
  zip.filter (fun e => sStarts e.entryName entryName)

/-- The (path, data) writes performed by `adm-zip 0.4`
`extractEntryTo(entryName, target, false, false)` on a directory entry:
each non-directory child is written to
`path.resolve(target, child.entryName.substr(entryName.length))`. -/
def dirWriteList (zip : Archive) (entryName target : String) :
    List (String × String) :=
  (getEntryChildren zip entryName).filterMap (fun child =>
    if child.isDirectory then none
    else some (pathResolve2 target (sDrop child.entryName (sLen entryName)),
               child.data))

/-- `adm-zip` `extractEntryTo(entryName, target, false, false)` for a
directory entry (the only way the source calls it, from
`writeTempDirectory`). -/
def extractEntryTo (zip : Archive) (entryName target : String)
    (tmp : Writes) : Writes :=
  applyWrites (dirWriteList zip entryName target) tmp

/-- The directory path `writeTempDirectory` materializes to:
`normalized(path.join(tmpDir, moduleName, entryName))`. -/
def tmpTargetDir (moduleName entryName : String) : String :=
  normalized (pathJoin (pathJoin TMP_ROOT moduleName) entryName)

/-- `writeTempDirectory` of `lib/util/file.js` (lines 88-103). -/
def writeTempDirectory (zip : Archive) (moduleName entryName : String)
    (tmp : Writes) : FileInfo × Writes :=
  let modulePath := tmpTargetDir moduleName entryName
  (⟨modulePath, true⟩, extractEntryTo zip entryName modulePath tmp)

/-- `zip.getEntry(entryName).getData()`: data of the first entry with
exactly that name. -/
def dataOf (zip : Archive) (entryName : String) : String :=
  ((zip.find? (fun e => e.entryName == entryName)).map (·.data)).getD ""

/-- `writeTempFile` of `lib/util/file.js` (lines 69-77): `fs.writeFile`
overwrites. -/
def writeTempFile (zip : Archive) (moduleName entryName : String)
    (tmp : Writes) : FileInfo × Writes :=
  let filePath := pathJoin (pathJoin TMP_ROOT moduleName) entryName
  (⟨filePath, false⟩, (filePath, dataOf zip entryName) :: tmp)

/-- `retrieveFromZip` of `lib/util/file.js` (lines 35-58): linear scan
for the first entry whose normalized name equals the normalized target;
a directory entry is extracted as a subtree, a file entry as one file. -/
def retrieveFromZip (zip : Archive) (moduleName filePath : String)
    (tmp : Writes) : Except String (FileInfo × Writes) :=
  match zip.find? (fun e => normalized e.entryName == normalized filePath) with
  | some e =>
    .ok (if e.isDirectory then writeTempDirectory zip moduleName e.entryName tmp
         else writeTempFile zip moduleName e.entryName tmp)
  | none =>
    .error ("could not retrieve " ++ normalized filePath ++ " from zip")

/-- `getTmpFileFromJarPath` of `lib/util/file.js` (lines 112-116): check
the jar is readable, retrieve; the trailing `.catch` replaces every
failure with the unreadable-zip error. -/
def getTmpFileFromJarPath (env : Env) (jarPath moduleName modulePath : String)
    (tmp : Writes) : Except String (FileInfo × Writes) :=
  match lookupA env.jars jarPath with
  | none => .error ("cannot read zip file at " ++ jarPath)
  | some zip =>
    match retrieveFromZip zip moduleName modulePath tmp with
    | .ok r => .ok r
    | .error _ => .error ("cannot read zip file at " ++ jarPath)

/-! ## Identifier parser (`lib/moduledev.js`, lines 88-181) -/

/-- `getModulePath` (lines 169-181): strip one of the three recognized
prefixes; the `nmodule/` form appends `.js`; otherwise `undefined`. -/
def getModulePath (url : String) : Option String :=
  if sStarts url "/module/" then some (sDrop url 8)
  else if sStarts url "module://" then some (sDrop url 9)
  else if sStarts url "nmodule/" then some (sDrop url 8 ++ ".js")
  else none

/-- `getModuleFileInfo` (lines 88-104): `{}` for a non-string, a thrown
string when the first separator index is `<= 0`, else the parsed record. -/
def getModuleFileInfo (modulePath : Option String) :
    Except String (Option ModuleFileInfo) :=
  match modulePath with
  | none => .ok none
  | some s =>
    match charIndex s.data '/' with
    | none => .error ("could not determine module name: " ++ s)
    | some idx =>
      if idx = 0 then .error ("could not determine module name: " ++ s)
      else .ok (some ⟨s, sTake s idx, sDrop s (idx + 1)⟩)

/-! ## Resolver (`lib/util/file.js`, second part) -/

/-- Runtime profile suffixes in fixed priority order (line 132). -/
def RUNTIME_PROFILES : List String := ["-ux", "-rt", "-wb", "-se", ""]

/-- `getModuleName` (lines 342-350): strip a trailing `Test`. -/
def getModuleName (modInfo : ModuleFileInfo) : String :=
  if sEnds modInfo.name "Test" then sTake modInfo.name (sLen modInfo.name - 4)
  else modInfo.name

/-- `getSrcFolder` (lines 352-354). -/
def getSrcFolder (modInfo : ModuleFileInfo) : String :=
  if sEnds modInfo.name "Test" then "srcTest" else "src"

/-- `stripExtension` (lines 356-358): `replace(/\.\w+$/, '')`. -/
def stripExtension (filePath : String) : String :=
  let rev := filePath.data.reverse
  let w := rev.takeWhile isWordChar
  match rev.drop w.length with
  | '.' :: rest => if w.isEmpty then filePath else ⟨rest.reverse⟩
  | _ => filePath

/-- `resolveModulePath` (lines 360-370), at a resolution strategy
without state: a path ending in `.js` is first tried with the extension
stripped, and only when that fails entirely is the extension-bearing
path tried. -/
def resolveModulePath (modulePath : String)
    (doResolve : String → Except String String) : Except String String :=
  if sEnds modulePath ".js" then
    match doResolve (stripExtension modulePath) with
    | .ok p => .ok p
    | .error _ => doResolve modulePath
  else doResolve modulePath

/-- `resolveModulePath` again, at the stateful strategy used by the
archive attempt (same source lines, promise state made explicit). -/
def resolveModulePathSt (modulePath : String)
    (doResolve : String → St → Except String String × St) (st : St) :
    Except String String × St :=
  if sEnds modulePath ".js" then
    match doResolve (stripExtension modulePath) st with
    | (.ok p, st') => (.ok p, st')
    | (.error _, st') => doResolve modulePath st'
  else doResolve modulePath st

/-- The dev-directory candidate tried for one profile suffix:
`path.join(dir, moduleName + profile, srcFolder, modulePath)`
(lines 184-185). -/
def devCandidate (dir moduleName srcFolder modulePath p : String) : String :=
  pathJoin (pathJoin (pathJoin dir (moduleName ++ p)) srcFolder) modulePath

/-- The `fromProfile` loop of `modulePathToModuleDev` (lines 177-189):
first readable candidate wins. -/
def devGo (env : Env) (dir moduleName srcFolder fullPath modulePath : String) :
    List String → Except String String
  | [] => .error ("could not find " ++ fullPath ++ " in any JAR module")
  | p :: rest =>
    if env.devFiles.contains (devCandidate dir moduleName srcFolder modulePath p)
    then .ok (devCandidate dir moduleName srcFolder modulePath p)
    else devGo env dir moduleName srcFolder fullPath modulePath rest

/-- `modulePathToModuleDev` (lines 162-191): resolve `undefined` for an
unparsed identifier, reject when the canonical name is unregistered,
else search profiles (with `.js`-stripping strategy). -/
def modulePathToModuleDev (env : Env) (mi : Option ModuleFileInfo) :
    Except String (Option String) :=
  match mi with
  | none => .ok none
  | some mi =>
    match lookupA env.reg (getModuleName mi) with
    | none =>
      .error ("module " ++ getModuleName mi ++ " not present in moduledev")
    | some dir =>
      match resolveModulePath mi.path
          (fun mp => devGo env dir (getModuleName mi) (getSrcFolder mi)
            mi.fullPath mp RUNTIME_PROFILES) with
      | .ok p => .ok (some p)
      | .error e => .error e

/-- The jar path probed for one profile:
`path.resolve(niagaraHome + '/modules/' + moduleName + profile + '.jar')`
(lines 228-229); `path.resolve` of one clean absolute-rooted argument is
modeled as the identity. -/
def profileJarPath (env : Env) (moduleName p : String) : String :=
  env.niagaraHome ++ "/modules/" ++ moduleName ++ p ++ ".jar"

/-- The `fromProfile` loop of `getTmpFileFromModuleInfo` (lines 221-243):
a file extraction returns at once, a directory extraction records the
path in the cache and keeps merging later profiles; at the end the
cached path (when any profile succeeded) or failure. -/
def arcGo (env : Env) (moduleName fullPath modulePath : String) :
    List String → St → Except String String × St
  | [], st =>
    (match lookupA st.cache fullPath with
     | some c => .ok c
     | none => .error ("could not find " ++ fullPath ++ " in any JAR module"),
     st)
  | p :: rest, st =>
    match getTmpFileFromJarPath env (profileJarPath env moduleName p)
        moduleName modulePath st.tmp with
    | .error _ => arcGo env moduleName fullPath modulePath rest st
    | .ok (info, tmp') =>
      if info.isDirectory then
        arcGo env moduleName fullPath modulePath rest
          ⟨(fullPath, info.path) :: st.cache, tmp'⟩
      else (.ok info.path, ⟨(fullPath, info.path) :: st.cache, tmp'⟩)

/-- `getTmpFileFromModuleInfo` (lines 206-246): consult the cache keyed
by the parsed full path first, reject an empty module name, else search
the profile jars (with `.js`-stripping strategy). -/
def getTmpFileFromModuleInfo (env : Env) (mi : ModuleFileInfo) (st : St) :
    Except String String × St :=
  match lookupA st.cache mi.fullPath with
  | some cached => (.ok cached, st)
  | none =>
    if mi.name = "" then (.error "could not find module", st)
    else resolveModulePathSt mi.path
      (fun mp st => arcGo env mi.name mi.fullPath mp RUNTIME_PROFILES st) st

/-- Result of `urlToFilePath`: a synchronously thrown value, a rejected
promise, or a fulfilled promise (possibly with `undefined`). -/
inductive UrlRes where
  | thrown (e : String)
  | err (e : String)
  | ok (p : Option String)
deriving Repr, DecidableEq

/-- `urlToFilePath` (lines 248-255): parse (a parser throw escapes
synchronously), try the dev directories, fall back to the archives. -/
def urlToFilePath (env : Env) (url : String) (st : St) : UrlRes × St :=
  match getModuleFileInfo (getModulePath url) with
  | .error e => (.thrown e, st)
  | .ok mi =>
    match modulePathToModuleDev env mi with
    | .ok v => (.ok v, st)
    | .error _ =>
      match mi with
      | none => (.err "could not find module", st)
      | some mi =>
        match getTmpFileFromModuleInfo env mi st with
        | (.ok p, st') => (.ok (some p), st')
        | (.error e, st') => (.err e, st')

/-- The `fromIndex` loop of `arrayToFilePath` (lines 257-265): first
fulfilled element wins, a rejection moves on, a synchronous throw
escapes. -/
def arrGo (env : Env) (arr : List String) :
    List String → St → UrlRes × St
  | [], st =>
    (.err ("no valid entries in array " ++ String.intercalate "," arr), st)
  | u :: rest, st =>
    match urlToFilePath env u st with
    | (.thrown e, st') => (.thrown e, st')
    | (.ok p, st') => (.ok p, st')
    | (.err _, st') => arrGo env arr rest st'

/-- An argument to `getFilePath` / a value of the `getRequireJsPaths`
mapping: a string, an array of strings, or anything else. -/
inductive JsVal where
  | str (s : String)
  | arr (xs : List String)
  | other
deriving Repr, DecidableEq

/-- `toFilePath` (lines 267-273): `none` models the implicit
`undefined` returned for an argument that is neither string nor array. -/
def toFilePath (env : Env) (v : JsVal) (st : St) : Option (UrlRes × St) :=
  match v with
  | .str s => some (urlToFilePath env s st)
  | .arr xs => some (arrGo env xs xs st)
  | .other => none

/-- Observable outcome of one `getFilePath` call. -/
inductive Outcome where
  /-- A value was thrown synchronously out of `getFilePath`; the
  callback is never invoked. -/
  | thrown (e : String)
  /-- `toFilePath` returned `undefined` and `.then` threw a synchronous
  `TypeError`; the callback is never invoked. -/
  | typeErrorThrown
  /-- The callback received an error. -/
  | cbErr (e : String)
  /-- The callback received `(null, path)`; the path may be
  `undefined`. -/
  | cbOk (p : Option String)
deriving Repr, DecidableEq

/-- `getFilePath` (lines 294-299). -/
def getFilePath (env : Env) (v : JsVal) (st : St) : Outcome × St :=
  match toFilePath env v st with
  | none => (.typeErrorThrown, st)
  | some (.thrown e, st') => (.thrown e, st')
  | some (.err e, st') => (.cbErr e, st')
  | some (.ok p, st') => (.cbOk p, st')

/-- Outcome of resolving one `getRequireJsPaths` value and stripping its
extension (the promise built for one alias, lines 331-334). -/
inductive ElemOut where
  | thrown (e : String)
  | typeErrorThrown
  | err (e : String)
  | ok (p : String)
deriving Repr, DecidableEq

/-- One alias's promise: resolve the value, then
`result[alias] = stripExtension(path)`.  `stripExtension` applied to an
`undefined` resolution throws inside the handler, rejecting that
element's promise. -/
def elemRes (env : Env) (v : JsVal) (st : St) : ElemOut × St :=
  match toFilePath env v st with
  | none => (.typeErrorThrown, st)
  | some (.thrown e, st') => (.thrown e, st')
  | some (.err e, st') => (.err e, st')
  | some (.ok none, st') =>
    (.err "TypeError: cannot call replace of undefined", st')
  | some (.ok (some p), st') => (.ok (stripExtension p), st')

/-- Observable outcome of one `getRequireJsPaths` call. -/
inductive RjsOut where
  | thrown (e : String)
  | typeErrorThrown
  | cbErr (e : String)
  | cbOk (m : List (String × String))
deriving Repr, DecidableEq

/-- The `Promise.all` over the aliases, sequentialized in key order: a
synchronous throw escapes, the first rejection fails the batch, and
otherwise every stripped path is collected. -/
def rjsGo (env : Env) : List (String × JsVal) → St → RjsOut × St
  | [], st => (.cbOk [], st)
  | (a, v) :: rest, st =>
    match elemRes env v st with
    | (.thrown e, st') => (.thrown e, st')
    | (.typeErrorThrown, st') => (.typeErrorThrown, st')
    | (.err e, st') => (.cbErr e, st')
    | (.ok p, st') =>
      match rjsGo env rest st' with
      | (.cbOk m, st'') => (.cbOk ((a, p) :: m), st'')
      | o => o

/-- `getRequireJsPaths` (lines 328-339). -/
def getRequireJsPaths (env : Env) (paths : List (String × JsVal)) (st : St) :
    RjsOut × St :=
  rjsGo env paths st

/-! ## Derived descriptions used to state the properties -/

/-- Option alternative: first `some` wins. -/
def orO {α : Type} : Option α → Option α → Option α
  | some a, _ => some a
  | none, b => b

/-- Last element of a list, `none` when empty. -/
def lastO {α : Type} : List α → Option α
  | [] => none
  | [a] => some a
  | _ :: b :: rest => lastO (b :: rest)

/-- Data of the first write attempt targeting `q`. -/
def firstW (ws : List (String × String)) (q : String) : Option String :=
  (ws.find? (fun pd => pd.1 == q)).map (·.2)

/-- The archive entry one profile's jar matches for the searched path:
the jar must be readable and the scan finds the first entry with equal
normalized name (mirrors `getTmpFileFromJarPath` + `retrieveFromZip`). -/
def profMatch (env : Env) (moduleName modulePath p : String) :
    Option ZipEntry :=
  match lookupA env.jars (profileJarPath env moduleName p) with
  | none => none
  | some zip =>
    zip.find? (fun e => normalized e.entryName == normalized modulePath)

/-- The (path, data) writes one profile contributes when its matched
entry is a directory. -/
def profileAttempts (env : Env) (moduleName modulePath p : String) :
    List (String × String) :=
  match lookupA env.jars (profileJarPath env moduleName p) with
  | none => []
  | some zip =>
    match zip.find? (fun e => normalized e.entryName == normalized modulePath) with
    | none => []
    | some e =>
      if e.isDirectory
      then dirWriteList zip e.entryName (tmpTargetDir moduleName e.entryName)
      else []

/-- All write attempts of a directory resolution, in profile order. -/
def mergedAttempts (env : Env) (moduleName modulePath : String)
    (ps : List String) : List (String × String) :=
  (ps.map (profileAttempts env moduleName modulePath)).flatten

/-- The extraction target directory of each matching profile, in
profile order. -/
def matchedTargets (env : Env) (moduleName modulePath : String)
    (ps : List String) : List String :=
  ps.filterMap (fun p =>
    (profMatch env moduleName modulePath p).map
      (fun e => tmpTargetDir moduleName e.entryName))

/-! ## Concrete fixtures for witnesses and counterexamples -/

/-- A fresh resolver state. -/
def stEmpty : St := ⟨[], []⟩

/-- Registry `{bajaScript: "D/bajaScript"}` with only the `-rt`
profile's copy of `rc/x.js` readable on disk. -/
def envC4 : Env := ⟨[("bajaScript", "D/bajaScript")], "NH",
  ["D/bajaScript/bajaScript-rt/src/rc/x.js"], []⟩

/-- Registry `{bajaux: "D/bajaux"}` with a test resource readable under
the `-ux` profile's `srcTest`. -/
def envC5 : Env := ⟨[("bajaux", "D/bajaux")], "NH",
  ["D/bajaux/bajaux-ux/srcTest/rc/boo"], []⟩

/-- A `-ux` profile jar: the directory `rc/` with a file, a
subdirectory, and a collision file. -/
def jarUx : Archive := [⟨"rc/", true, ""⟩, ⟨"rc/foo.js", false, "ux-foo"⟩,
  ⟨"rc/ux-dir/", true, ""⟩, ⟨"rc/ux-dir/a.js", false, "ux-a"⟩,
  ⟨"rc/both.js", false, "ux-both"⟩]

/-- A `-rt` profile jar: the directory `rc/` with a subdirectory and the
same collision file with different contents. -/
def jarRt : Archive := [⟨"rc/", true, ""⟩, ⟨"rc/rt-dir/", true, ""⟩,
  ⟨"rc/rt-dir/b.js", false, "rt-b"⟩, ⟨"rc/both.js", false, "rt-both"⟩]

/-- No registry; the module `testModule` is packaged as the `-ux` and
`-rt` profile jars under `NH/modules`. -/
def envArc : Env := ⟨[], "NH", [],
  [("NH/modules/testModule-ux.jar", jarUx), ("NH/modules/testModule-rt.jar", jarRt)]⟩

/-! ## General lemmas -/

theorem orO_none_right {α : Type} (x : Option α) : orO x none = x := by
  cases x <;> rfl

theorem orO_orO_some {α : Type} (a c : Option α) (t : α) :
    orO (orO a (some t)) c = orO a (some t) := by
  cases a <;> rfl

theorem lastO_isSome {α : Type} :
    ∀ (b : α) (l : List α), (lastO (b :: l)).isSome = true
  | _, [] => rfl
  | _, c :: rest => lastO_isSome c rest

theorem lastO_cons {α : Type} (t : α) (l : List α) :
    lastO (t :: l) = orO (lastO l) (some t) := by
  cases l with
  | nil => rfl
  | cons b rest =>
    show lastO (b :: rest) = orO (lastO (b :: rest)) (some t)
    obtain ⟨x, hx⟩ := Option.isSome_iff_exists.mp (lastO_isSome b rest)
    rw [hx]; rfl

theorem lookupA_cons {α : Type} (k : String) (v : α)
    (rest : List (String × α)) (q : String) :
    lookupA ((k, v) :: rest) q = if k = q then some v else lookupA rest q := rfl

theorem firstW_cons (p d : String) (rest : List (String × String)) (q : String) :
    firstW ((p, d) :: rest) q = if p = q then some d else firstW rest q := by
  by_cases h : p = q
  · subst h; simp [firstW, List.find?_cons]
  · have hb : (p == q) = false := by simp [h]
    simp [firstW, List.find?_cons, hb, h]

theorem applyWrites_append (a b : List (String × String)) (w : Writes) :
    applyWrites (a ++ b) w = applyWrites b (applyWrites a w) :=
  List.foldl_append ..

theorem lookupA_applyWrites (ws : List (String × String)) (w : Writes)
    (q : String) :
    lookupA (applyWrites ws w) q = orO (lookupA w q) (firstW ws q) := by
  induction ws generalizing w with
  | nil => simp [applyWrites, firstW, orO_none_right]
  | cons pd rest ih =>
    obtain ⟨p, d⟩ := pd
    show lookupA (applyWrites rest (writeFileTo w p d)) q = _
    rw [ih, firstW_cons]
    unfold writeFileTo
    by_cases hw : (lookupA w p).isSome
    · rw [if_pos hw]
      by_cases hpq : p = q
      · subst hpq
        rw [if_pos rfl]
        obtain ⟨v, hv⟩ := Option.isSome_iff_exists.mp hw
        rw [hv]; rfl
      · rw [if_neg hpq]
    · rw [if_neg hw]
      have hwn : lookupA w p = none := Option.not_isSome_iff_eq_none.mp hw
      by_cases hpq : p = q
      · subst hpq
        rw [lookupA_cons, if_pos rfl, hwn]
        simp [orO]
      · rw [lookupA_cons, if_neg hpq, if_neg hpq]

/-! ## Dev-directory search lemmas -/

theorem devGo_eq_find (env : Env) (dir nm src fp mp : String)
    (ps : List String) :
    devGo env dir nm src fp mp ps =
      (match ps.find? (fun p => env.devFiles.contains (devCandidate dir nm src mp p)) with
       | some p => .ok (devCandidate dir nm src mp p)
       | none => .error ("could not find " ++ fp ++ " in any JAR module")) := by
  induction ps with
  | nil => rfl
  | cons p rest ih =>
    simp only [devGo, List.find?_cons]
    cases h : env.devFiles.contains (devCandidate dir nm src mp p) with
    | true => simp
    | false => simp [ih]

/-! ## Parser lemmas -/

theorem getModuleFileInfo_error_of_le_zero (rest : String)
    (h : jsIndexOf rest '/' ≤ 0) :
    getModuleFileInfo (some rest) =
      .error ("could not determine module name: " ++ rest) := by
  show (match charIndex rest.data '/' with
    | none => Except.error ("could not determine module name: " ++ rest)
    | some idx =>
      if idx = 0 then Except.error ("could not determine module name: " ++ rest)
      else Except.ok (some (⟨rest, sTake rest idx, sDrop rest (idx + 1)⟩ :
        ModuleFileInfo))) =
    Except.error ("could not determine module name: " ++ rest)
  cases hc : charIndex rest.data '/' with
  | none => rfl
  | some n =>
    have hn : jsIndexOf rest '/' = (n : Int) := by unfold jsIndexOf; rw [hc]
    have h0 : n = 0 := by rw [hn] at h; omega
    subst h0; rfl

/-! ## C9 -/

/-- C9: an argument to `getFilePath` that is neither a string nor an
array makes `toFilePath` return `undefined`, whereupon `getFilePath`
throws a synchronous `TypeError` by calling `.then` on it; the callback
is never invoked, with neither a path nor an error. -/
theorem c9_non_string_non_array_type_error (env : Env) (st : St) :
    toFilePath env .other st = none ∧
    getFilePath env .other st = (.typeErrorThrown, st) := ⟨rfl, rfl⟩

/-! ## C7 -/

/-- C7 counterexample: the identifier `"bogus"` matches none of the
three prefix syntaxes, yet resolution does not fail: `getFilePath`
invokes its callback with `(null, undefined)` — a success with an
`undefined` path, not an error. -/
theorem c7_counterexample :
    getFilePath envC4 (.str "bogus") stEmpty = (.cbOk none, stEmpty) := by
  decide

/-- C7 amended: for every identifier matching none of the three
recognized prefix syntaxes (parsing yields no module name), `getFilePath`
reports success to the caller with an `undefined` path instead of
failing. -/
theorem c7_amended_unrecognized_succeeds_undefined (env : Env)
    (url : String) (st : St) (h : getModulePath url = none) :
    getFilePath env (.str url) st = (.cbOk none, st) := by
  simp [getFilePath, toFilePath, urlToFilePath, h, getModuleFileInfo,
    modulePathToModuleDev]

/-- Witness for C7: the amended theorem applied to `"bogus"`. -/
theorem c7_witness :
    getModulePath "bogus" = none ∧
    getFilePath envC4 (.str "bogus") stEmpty = (.cbOk none, stEmpty) :=
  ⟨by decide,
   c7_amended_unrecognized_succeeds_undefined envC4 "bogus" stEmpty (by decide)⟩

/-! ## C6 -/

/-- C6 counterexample: for `"/module/foo"` (recognized prefix, remainder
without a separator) the malformed-identifier error is thrown
synchronously out of `getFilePath` — the callback is never invoked with
it. -/
theorem c6_counterexample :
    getFilePath envC4 (.str "/module/foo") stEmpty =
      (.thrown "could not determine module name: foo", stEmpty) := by
  decide

/-- C6 amended: for every identifier matching one of the three
recognized prefixes whose remainder's first separator index is `<= 0`,
`getFilePath` synchronously throws the raw string
`could not determine module name: ` followed by the offending remainder;
the callback is never invoked. -/
theorem c6_amended_malformed_thrown (env : Env) (url rest : String)
    (st : St) (h1 : getModulePath url = some rest)
    (h2 : jsIndexOf rest '/' ≤ 0) :
    getFilePath env (.str url) st =
      (.thrown ("could not determine module name: " ++ rest), st) := by
  simp [getFilePath, toFilePath, urlToFilePath, h1,
    getModuleFileInfo_error_of_le_zero rest h2]

/-- Witness for C6: the amended theorem applied to `"/module/foo"`. -/
theorem c6_witness :
    getModulePath "/module/foo" = some "foo" ∧
    jsIndexOf "foo" '/' ≤ 0 ∧
    getFilePath envC4 (.str "/module/foo") stEmpty =
      (.thrown ("could not determine module name: " ++ "foo"), stEmpty) :=
  ⟨by decide, by decide,
   c6_amended_malformed_thrown envC4 "/module/foo" "foo" stEmpty
     (by decide) (by decide)⟩

/-! ## C4 -/

/-- C4 counterexample: with registry `{bajaScript: "D/bajaScript"}` and
only the `-rt` profile's copy readable, `/module/bajaScript/rc/x.js`
resolves to `D/bajaScript/bajaScript-rt/src/rc/x.js` — the registered
directory followed by the profile directory — and not to the claimed
`D/bajaScript-rt/src/rc/x.js`. -/
theorem c4_counterexample :
    urlToFilePath envC4 "/module/bajaScript/rc/x.js" stEmpty =
      (.ok (some "D/bajaScript/bajaScript-rt/src/rc/x.js"), stEmpty) ∧
    ("D/bajaScript/bajaScript-rt/src/rc/x.js" : String) ≠
      "D/bajaScript-rt/src/rc/x.js" ∧
    urlToFilePath envC4 "/module/bajaScript/rc/x.js" stEmpty ≠
      (.ok (some "D/bajaScript-rt/src/rc/x.js"), stEmpty) := by
  refine ⟨by decide, by decide, by decide⟩

/-- C4 amended: when the canonical module name is registered,
dev-directory resolution probes
`registryDir/moduleName+suffix/srcFolder/relativePath` for the suffixes
`-ux`, `-rt`, `-wb`, `-se`, `''` in that fixed order and returns the
first readable candidate; the example identifier resolves to
`D/bajaScript/bajaScript-rt/src/rc/x.js`. -/
theorem c4_amended_profile_order :
    RUNTIME_PROFILES = ["-ux", "-rt", "-wb", "-se", ""] ∧
    (∀ (env : Env) (dir nm src fp mp : String),
      devGo env dir nm src fp mp RUNTIME_PROFILES =
        (match RUNTIME_PROFILES.find?
            (fun p => env.devFiles.contains (devCandidate dir nm src mp p)) with
         | some p => .ok (devCandidate dir nm src mp p)
         | none => .error ("could not find " ++ fp ++ " in any JAR module"))) ∧
    (∀ (env : Env) (mi : ModuleFileInfo) (dir : String),
      sEnds mi.path ".js" = false →
      lookupA env.reg (getModuleName mi) = some dir →
      modulePathToModuleDev env (some mi) =
        (match RUNTIME_PROFILES.find? (fun p =>
            env.devFiles.contains
              (devCandidate dir (getModuleName mi) (getSrcFolder mi) mi.path p)) with
         | some p =>
           .ok (some (devCandidate dir (getModuleName mi) (getSrcFolder mi)
             mi.path p))
         | none =>
           .error ("could not find " ++ mi.fullPath ++ " in any JAR module"))) ∧
    urlToFilePath envC4 "/module/bajaScript/rc/x.js" stEmpty =
      (.ok (some "D/bajaScript/bajaScript-rt/src/rc/x.js"), stEmpty) := by
  refine ⟨rfl, fun env dir nm src fp mp => devGo_eq_find env dir nm src fp mp _,
    fun env mi dir hjs hreg => ?_, by decide⟩
  simp only [modulePathToModuleDev, hreg, resolveModulePath, hjs,
    Bool.false_eq_true, if_false, devGo_eq_find]
  cases RUNTIME_PROFILES.find? (fun p =>
      env.devFiles.contains
        (devCandidate dir (getModuleName mi) (getSrcFolder mi) mi.path p)) <;>
    rfl

/-- Witness for C4: a profile search over the fixture registry for an
extension-free path. -/
theorem c4_witness :
    modulePathToModuleDev envC4
        (some ⟨"bajaScript/rc", "bajaScript", "rc"⟩) =
      (match RUNTIME_PROFILES.find? (fun p =>
          envC4.devFiles.contains (devCandidate "D/bajaScript"
            (getModuleName ⟨"bajaScript/rc", "bajaScript", "rc"⟩)
            (getSrcFolder ⟨"bajaScript/rc", "bajaScript", "rc"⟩) "rc" p)) with
       | some p =>
         .ok (some (devCandidate "D/bajaScript"
           (getModuleName ⟨"bajaScript/rc", "bajaScript", "rc"⟩)
           (getSrcFolder ⟨"bajaScript/rc", "bajaScript", "rc"⟩) "rc" p))
       | none =>
         .error ("could not find " ++ "bajaScript/rc" ++ " in any JAR module")) :=
  c4_amended_profile_order.2.2.1 envC4 ⟨"bajaScript/rc", "bajaScript", "rc"⟩
    "D/bajaScript" (by decide) (by decide)

/-! ## C5 -/

/-- C5: a module name ending in the literal suffix `Test` is stripped to
the base name, the base name is used both for the registry lookup and to
name the profile directories, and the search runs under `srcTest`; a
name without the suffix searches under `src`. -/
theorem c5_test_suffix :
    (∀ mi : ModuleFileInfo, sEnds mi.name "Test" = true →
      getModuleName mi = sTake mi.name (sLen mi.name - 4) ∧
      getSrcFolder mi = "srcTest") ∧
    (∀ mi : ModuleFileInfo, sEnds mi.name "Test" = false →
      getModuleName mi = mi.name ∧ getSrcFolder mi = "src") ∧
    (∀ (env : Env) (mi : ModuleFileInfo) (dir : String),
      sEnds mi.name "Test" = true →
      sEnds mi.path ".js" = false →
      lookupA env.reg (getModuleName mi) = some dir →
      modulePathToModuleDev env (some mi) =
        (match RUNTIME_PROFILES.find? (fun p =>
            env.devFiles.contains
              (devCandidate dir (getModuleName mi) "srcTest" mi.path p)) with
         | some p =>
           .ok (some (devCandidate dir (getModuleName mi) "srcTest" mi.path p))
         | none =>
           .error ("could not find " ++ mi.fullPath ++ " in any JAR module"))) := by
  refine ⟨fun mi h => ⟨by simp [getModuleName, h], by simp [getSrcFolder, h]⟩,
    fun mi h => ⟨by simp [getModuleName, h], by simp [getSrcFolder, h]⟩,
    fun env mi dir htest hjs hreg => ?_⟩
  have hsrc : getSrcFolder mi = "srcTest" := by simp [getSrcFolder, htest]
  simp only [modulePathToModuleDev, hreg, resolveModulePath, hjs,
    Bool.false_eq_true, if_false, devGo_eq_find, hsrc]
  cases RUNTIME_PROFILES.find? (fun p =>
      env.devFiles.contains (devCandidate dir (getModuleName mi) "srcTest" mi.path p)) <;>
    rfl

/-- Witness for C5: `module://bajauxTest/rc/boo` style identifier with
registry entry `bajaux`, resolving under `srcTest`. -/
theorem c5_witness :
    modulePathToModuleDev envC5
        (some ⟨"bajauxTest/rc/boo", "bajauxTest", "rc/boo"⟩) =
      (match RUNTIME_PROFILES.find? (fun p =>
          envC5.devFiles.contains
            (devCandidate "D/bajaux"
              (getModuleName ⟨"bajauxTest/rc/boo", "bajauxTest", "rc/boo"⟩)
              "srcTest" "rc/boo" p)) with
       | some p =>
         .ok (some (devCandidate "D/bajaux"
           (getModuleName ⟨"bajauxTest/rc/boo", "bajauxTest", "rc/boo"⟩)
           "srcTest" "rc/boo" p))
       | none =>
         .error ("could not find " ++ "bajauxTest/rc/boo" ++ " in any JAR module")) :=
  c5_test_suffix.2.2 envC5 ⟨"bajauxTest/rc/boo", "bajauxTest", "rc/boo"⟩
    "D/bajaux" (by decide) (by decide) (by decide)

/-! ## C3 -/

/-- C3: for a relative path ending in `.js`, dev-directory resolution
first attempts every runtime profile with the extension-stripped path,
and only when every profile fails under the stripped form does it retry
the profiles with the original extension-bearing path. -/
theorem c3_js_stripped_first (env : Env) (mi : ModuleFileInfo) (dir : String)
    (hjs : sEnds mi.path ".js" = true)
    (hreg : lookupA env.reg (getModuleName mi) = some dir) :
    (∀ p, RUNTIME_PROFILES.find? (fun p =>
        env.devFiles.contains (devCandidate dir (getModuleName mi)
          (getSrcFolder mi) (stripExtension mi.path) p)) = some p →
      modulePathToModuleDev env (some mi) =
        .ok (some (devCandidate dir (getModuleName mi) (getSrcFolder mi)
          (stripExtension mi.path) p))) ∧
    ((∀ p ∈ RUNTIME_PROFILES,
        env.devFiles.contains (devCandidate dir (getModuleName mi)
          (getSrcFolder mi) (stripExtension mi.path) p) = false) →
      modulePathToModuleDev env (some mi) =
        (match RUNTIME_PROFILES.find? (fun p =>
            env.devFiles.contains (devCandidate dir (getModuleName mi)
              (getSrcFolder mi) mi.path p)) with
         | some p =>
           .ok (some (devCandidate dir (getModuleName mi) (getSrcFolder mi)
             mi.path p))
         | none =>
           .error ("could not find " ++ mi.fullPath ++ " in any JAR module"))) := by
  constructor
  · intro p hfind
    simp only [modulePathToModuleDev, hreg, resolveModulePath, hjs, if_true,
      devGo_eq_find, hfind]
  · intro hall
    have hnone : RUNTIME_PROFILES.find? (fun p =>
        env.devFiles.contains (devCandidate dir (getModuleName mi)
          (getSrcFolder mi) (stripExtension mi.path) p)) = none := by
      rw [List.find?_eq_none]
      intro p hp
      show ¬ env.devFiles.contains (devCandidate dir (getModuleName mi)
        (getSrcFolder mi) (stripExtension mi.path) p) = true
      rw [hall p hp]
      simp
    simp only [modulePathToModuleDev, hreg, resolveModulePath, hjs, if_true,
      devGo_eq_find, hnone]
    cases RUNTIME_PROFILES.find? (fun p =>
        env.devFiles.contains (devCandidate dir (getModuleName mi)
          (getSrcFolder mi) mi.path p)) <;> rfl

/-- Witness for C3: in the C4 fixture the stripped form `rc/x` is
unreadable in all profiles, so resolution falls back to `rc/x.js` and
finds the `-rt` candidate. -/
theorem c3_witness :
    modulePathToModuleDev envC4
        (some ⟨"bajaScript/rc/x.js", "bajaScript", "rc/x.js"⟩) =
      (match RUNTIME_PROFILES.find? (fun p =>
          envC4.devFiles.contains (devCandidate "D/bajaScript"
            (getModuleName ⟨"bajaScript/rc/x.js", "bajaScript", "rc/x.js"⟩)
            (getSrcFolder ⟨"bajaScript/rc/x.js", "bajaScript", "rc/x.js"⟩)
            "rc/x.js" p)) with
       | some p =>
         .ok (some (devCandidate "D/bajaScript"
           (getModuleName ⟨"bajaScript/rc/x.js", "bajaScript", "rc/x.js"⟩)
           (getSrcFolder ⟨"bajaScript/rc/x.js", "bajaScript", "rc/x.js"⟩)
           "rc/x.js" p))
       | none =>
         .error ("could not find " ++ "bajaScript/rc/x.js" ++ " in any JAR module")) :=
  (c3_js_stripped_first envC4 ⟨"bajaScript/rc/x.js", "bajaScript", "rc/x.js"⟩
    "D/bajaScript" (by decide) (by decide)).2 (by decide)

/-! ## Archive search lemmas -/

theorem matchedTargets_nil (env : Env) (nm mp : String) :
    matchedTargets env nm mp [] = [] := rfl

theorem matchedTargets_cons_none (env : Env) (nm mp p : String)
    (rest : List String) (h : profMatch env nm mp p = none) :
    matchedTargets env nm mp (p :: rest) = matchedTargets env nm mp rest := by
  simp [matchedTargets, List.filterMap_cons, h]

theorem matchedTargets_cons_some (env : Env) (nm mp p : String)
    (rest : List String) (e : ZipEntry) (h : profMatch env nm mp p = some e) :
    matchedTargets env nm mp (p :: rest) =
      tmpTargetDir nm e.entryName :: matchedTargets env nm mp rest := by
  simp [matchedTargets, List.filterMap_cons, h]

theorem mergedAttempts_cons (env : Env) (nm mp p : String)
    (rest : List String) :
    mergedAttempts env nm mp (p :: rest) =
      profileAttempts env nm mp p ++ mergedAttempts env nm mp rest := by
  simp [mergedAttempts]

theorem arcGo_ok_cache (env : Env) (nm fp mp : String) (ps : List String) :
    ∀ (st st' : St) (p : String),
      arcGo env nm fp mp ps st = (.ok p, st') →
      lookupA st'.cache fp = some p := by
  induction ps with
  | nil =>
    intro st st' p h
    simp only [arcGo] at h
    cases hc : lookupA st.cache fp with
    | none => rw [hc] at h; simp at h
    | some c =>
      rw [hc] at h
      injection h with h1 h2
      injection h1 with h3
      subst h2; rw [hc, h3]
  | cons p0 rest ih =>
    intro st st' p h
    simp only [arcGo] at h
    cases hj : getTmpFileFromJarPath env (profileJarPath env nm p0) nm mp st.tmp with
    | error e => simp only [hj] at h; exact ih st st' p h
    | ok r =>
      obtain ⟨info, tmp'⟩ := r
      simp only [hj] at h
      split at h
      · exact ih _ st' p h
      · injection h with h1 h2
        injection h1 with h3
        subst h2
        rw [lookupA_cons, if_pos rfl, h3]

theorem arcGo_dirs (env : Env) (nm fp mp : String) (ps : List String) :
    ∀ st : St,
      (∀ p ∈ ps, ((profMatch env nm mp p).all (fun e => e.isDirectory)) = true) →
      (arcGo env nm fp mp ps st).1 =
        (match orO (lastO (matchedTargets env nm mp ps)) (lookupA st.cache fp) with
         | some d => .ok d
         | none => .error ("could not find " ++ fp ++ " in any JAR module")) ∧
      (arcGo env nm fp mp ps st).2.tmp =
        applyWrites (mergedAttempts env nm mp ps) st.tmp ∧
      lookupA (arcGo env nm fp mp ps st).2.cache fp =
        orO (lastO (matchedTargets env nm mp ps)) (lookupA st.cache fp) := by
  induction ps with
  | nil =>
    intro st _
    refine ⟨?_, rfl, rfl⟩
    show (match lookupA st.cache fp with
      | some c => Except.ok c
      | none => Except.error ("could not find " ++ fp ++ " in any JAR module")) = _
    cases lookupA st.cache fp <;> rfl
  | cons p0 rest ih =>
    intro st hd
    have hd0 := hd p0 (List.mem_cons_self p0 rest)
    have hdr : ∀ p ∈ rest,
        ((profMatch env nm mp p).all (fun e => e.isDirectory)) = true :=
      fun p hp => hd p (List.mem_cons_of_mem p0 hp)
    cases hj : lookupA env.jars (profileJarPath env nm p0) with
    | none =>
      have hpm : profMatch env nm mp p0 = none := by simp [profMatch, hj]
      have hpa : profileAttempts env nm mp p0 = [] := by
        simp [profileAttempts, hj]
      have harc : arcGo env nm fp mp (p0 :: rest) st =
          arcGo env nm fp mp rest st := by
        simp only [arcGo, getTmpFileFromJarPath, hj]
      rw [harc, matchedTargets_cons_none env nm mp p0 rest hpm,
        mergedAttempts_cons, hpa, List.nil_append]
      exact ih st hdr
    | some zip =>
      cases hfind : zip.find? (fun e => normalized e.entryName == normalized mp) with
      | none =>
        have hpm : profMatch env nm mp p0 = none := by
          simp [profMatch, hj, hfind]
        have hpa : profileAttempts env nm mp p0 = [] := by
          simp [profileAttempts, hj, hfind]
        have harc : arcGo env nm fp mp (p0 :: rest) st =
            arcGo env nm fp mp rest st := by
          simp only [arcGo, getTmpFileFromJarPath, hj, retrieveFromZip, hfind]
        rw [harc, matchedTargets_cons_none env nm mp p0 rest hpm,
          mergedAttempts_cons, hpa, List.nil_append]
        exact ih st hdr
      | some e =>
        have hpm : profMatch env nm mp p0 = some e := by
          simp [profMatch, hj, hfind]
        have hdir : e.isDirectory = true := by
          have h0 := hd0
          rw [hpm] at h0
          simpa using h0
        have hpa : profileAttempts env nm mp p0 =
            dirWriteList zip e.entryName (tmpTargetDir nm e.entryName) := by
          simp [profileAttempts, hj, hfind, hdir]
        have harc : arcGo env nm fp mp (p0 :: rest) st =
            arcGo env nm fp mp rest
              ⟨(fp, tmpTargetDir nm e.entryName) :: st.cache,
               extractEntryTo zip e.entryName (tmpTargetDir nm e.entryName) st.tmp⟩ := by
          simp only [arcGo, getTmpFileFromJarPath, hj, retrieveFromZip, hfind,
            hdir, if_true, writeTempDirectory]
        obtain ⟨ih1, ih2, ih3⟩ := ih
          ⟨(fp, tmpTargetDir nm e.entryName) :: st.cache,
           extractEntryTo zip e.entryName (tmpTargetDir nm e.entryName) st.tmp⟩ hdr
        have hlk : lookupA ((fp, tmpTargetDir nm e.entryName) :: st.cache) fp =
            some (tmpTargetDir nm e.entryName) := by simp [lookupA_cons]
        rw [matchedTargets_cons_some env nm mp p0 rest e hpm, lastO_cons]
        refine ⟨?_, ?_, ?_⟩
        · rw [harc, ih1, hlk, orO_orO_some]
        · rw [harc, ih2, mergedAttempts_cons, hpa, applyWrites_append]
          rfl
        · rw [harc, ih3, hlk, orO_orO_some]

theorem getTmp_cache_hit (env : Env) (mi : ModuleFileInfo) (st : St)
    (c : String) (h : lookupA st.cache mi.fullPath = some c) :
    getTmpFileFromModuleInfo env mi st = (.ok c, st) := by
  simp [getTmpFileFromModuleInfo, h]

theorem getTmp_ok_cache (env : Env) (mi : ModuleFileInfo) (st st' : St)
    (p : String) (h : getTmpFileFromModuleInfo env mi st = (.ok p, st')) :
    lookupA st'.cache mi.fullPath = some p := by
  unfold getTmpFileFromModuleInfo at h
  cases hc : lookupA st.cache mi.fullPath with
  | some c =>
    simp only [hc] at h
    injection h with h1 h2
    injection h1 with h3
    subst h2; rw [hc, h3]
  | none =>
    simp only [hc] at h
    by_cases hn : mi.name = ""
    · rw [if_pos hn] at h; simp at h
    · rw [if_neg hn] at h
      unfold resolveModulePathSt at h
      beta_reduce at h
      by_cases hjs : sEnds mi.path ".js" = true
      · rw [if_pos hjs] at h
        cases h1 : arcGo env mi.name mi.fullPath (stripExtension mi.path)
            RUNTIME_PROFILES st with
        | mk r st1 =>
          rw [h1] at h
          cases r with
          | ok q =>
            simp only at h
            exact arcGo_ok_cache env mi.name mi.fullPath (stripExtension mi.path)
              RUNTIME_PROFILES st st' p (h1.trans h)
          | error e =>
            simp only at h
            exact arcGo_ok_cache env mi.name mi.fullPath mi.path
              RUNTIME_PROFILES st1 st' p h
      · rw [if_neg hjs] at h
        exact arcGo_ok_cache env mi.name mi.fullPath mi.path
          RUNTIME_PROFILES st st' p h

theorem urlToFilePath_archive (env : Env) (url : String)
    (mi : ModuleFileInfo) (st : St) (e : String)
    (hp : getModuleFileInfo (getModulePath url) = .ok (some mi))
    (hdev : modulePathToModuleDev env (some mi) = .error e) :
    urlToFilePath env url st =
      (match getTmpFileFromModuleInfo env mi st with
       | (.ok p, st') => (.ok (some p), st')
       | (.error e2, st') => (.err e2, st')) := by
  simp only [urlToFilePath, hp, hdev]

/-! ## C2 -/

/-- C2: an identifier resolved through the archive path is cached under
its parsed full path, a second `getFilePath` call with the same
identifier on the same instance returns the identical path with the
state unchanged (so archive extraction is not invoked a second time),
and a cache hit returns before any profile search. -/
theorem c2_archive_resolution_cached (env : Env) (url : String)
    (mi : ModuleFileInfo) (st st' : St) (p e : String)
    (hp : getModuleFileInfo (getModulePath url) = .ok (some mi))
    (hdev : modulePathToModuleDev env (some mi) = .error e)
    (harc : getTmpFileFromModuleInfo env mi st = (.ok p, st')) :
    getFilePath env (.str url) st = (.cbOk (some p), st') ∧
    lookupA st'.cache mi.fullPath = some p ∧
    getFilePath env (.str url) st' = (.cbOk (some p), st') ∧
    (∀ (st₀ : St) (c : String), lookupA st₀.cache mi.fullPath = some c →
      getTmpFileFromModuleInfo env mi st₀ = (.ok c, st₀)) := by
  have hcache := getTmp_ok_cache env mi st st' p harc
  refine ⟨?_, hcache, ?_, fun st₀ c h => getTmp_cache_hit env mi st₀ c h⟩
  · simp only [getFilePath, toFilePath,
      urlToFilePath_archive env url mi st e hp hdev, harc]
  · have h2 : getTmpFileFromModuleInfo env mi st' = (.ok p, st') :=
      getTmp_cache_hit env mi st' p hcache
    simp only [getFilePath, toFilePath,
      urlToFilePath_archive env url mi st' e hp hdev, h2]

/-- Witness for C2: `/module/testModule/rc/foo.js` resolved from the
`-ux` profile jar of the fixture. -/
theorem c2_witness :
    getFilePath envArc (.str "/module/testModule/rc/foo.js") stEmpty =
      (.cbOk (some "niagara-moduledev-tmp/testModule/rc/foo.js"),
       ⟨[("testModule/rc/foo.js", "niagara-moduledev-tmp/testModule/rc/foo.js")],
        [("niagara-moduledev-tmp/testModule/rc/foo.js", "ux-foo")]⟩) ∧
    getFilePath envArc (.str "/module/testModule/rc/foo.js")
        ⟨[("testModule/rc/foo.js", "niagara-moduledev-tmp/testModule/rc/foo.js")],
         [("niagara-moduledev-tmp/testModule/rc/foo.js", "ux-foo")]⟩ =
      (.cbOk (some "niagara-moduledev-tmp/testModule/rc/foo.js"),
       ⟨[("testModule/rc/foo.js", "niagara-moduledev-tmp/testModule/rc/foo.js")],
        [("niagara-moduledev-tmp/testModule/rc/foo.js", "ux-foo")]⟩) :=
  have h := c2_archive_resolution_cached envArc "/module/testModule/rc/foo.js"
    ⟨"testModule/rc/foo.js", "testModule", "rc/foo.js"⟩ stEmpty
    ⟨[("testModule/rc/foo.js", "niagara-moduledev-tmp/testModule/rc/foo.js")],
     [("niagara-moduledev-tmp/testModule/rc/foo.js", "ux-foo")]⟩
    "niagara-moduledev-tmp/testModule/rc/foo.js"
    "module testModule not present in moduledev"
    (by decide) (by decide) (by decide)
  ⟨h.1, h.2.2.1⟩

/-! ## C10 -/

/-- C10: the archive cache is keyed by the prefix-stripped
`moduleName/relativePath`, not by the raw identifier, so the `/module/`
URL form and the `module://` ORD form of one resource share one cache
entry: after either form is resolved via archive extraction, resolving
the other form on the same instance returns the identical path with the
state unchanged (no second extraction). -/
theorem c10_cache_shared_between_forms (env : Env) (u1 u2 mp : String)
    (mi : ModuleFileInfo) (st st' : St) (p e : String)
    (h1 : getModulePath u1 = some mp) (h2 : getModulePath u2 = some mp)
    (hp : getModuleFileInfo (some mp) = .ok (some mi))
    (hdev : modulePathToModuleDev env (some mi) = .error e)
    (harc : getTmpFileFromModuleInfo env mi st = (.ok p, st')) :
    urlToFilePath env u1 st = (.ok (some p), st') ∧
    urlToFilePath env u2 st' = (.ok (some p), st') := by
  have hp1 : getModuleFileInfo (getModulePath u1) = .ok (some mi) := by
    rw [h1]; exact hp
  have hp2 : getModuleFileInfo (getModulePath u2) = .ok (some mi) := by
    rw [h2]; exact hp
  have hcache := getTmp_ok_cache env mi st st' p harc
  constructor
  · simp only [urlToFilePath_archive env u1 mi st e hp1 hdev, harc]
  · have hhit : getTmpFileFromModuleInfo env mi st' = (.ok p, st') :=
      getTmp_cache_hit env mi st' p hcache
    simp only [urlToFilePath_archive env u2 mi st' e hp2 hdev, hhit]

/-- Witness for C10: the URL form extracts `rc/foo.js` from the fixture
jar, then the ORD form of the same resource hits the shared cache
entry. -/
theorem c10_witness :
    urlToFilePath envArc "/module/testModule/rc/foo.js" stEmpty =
      (.ok (some "niagara-moduledev-tmp/testModule/rc/foo.js"),
       ⟨[("testModule/rc/foo.js", "niagara-moduledev-tmp/testModule/rc/foo.js")],
        [("niagara-moduledev-tmp/testModule/rc/foo.js", "ux-foo")]⟩) ∧
    urlToFilePath envArc "module://testModule/rc/foo.js"
        ⟨[("testModule/rc/foo.js", "niagara-moduledev-tmp/testModule/rc/foo.js")],
         [("niagara-moduledev-tmp/testModule/rc/foo.js", "ux-foo")]⟩ =
      (.ok (some "niagara-moduledev-tmp/testModule/rc/foo.js"),
       ⟨[("testModule/rc/foo.js", "niagara-moduledev-tmp/testModule/rc/foo.js")],
        [("niagara-moduledev-tmp/testModule/rc/foo.js", "ux-foo")]⟩) :=
  c10_cache_shared_between_forms envArc "/module/testModule/rc/foo.js"
    "module://testModule/rc/foo.js" "testModule/rc/foo.js"
    ⟨"testModule/rc/foo.js", "testModule", "rc/foo.js"⟩ stEmpty
    ⟨[("testModule/rc/foo.js", "niagara-moduledev-tmp/testModule/rc/foo.js")],
     [("niagara-moduledev-tmp/testModule/rc/foo.js", "ux-foo")]⟩
    "niagara-moduledev-tmp/testModule/rc/foo.js"
    "module testModule not present in moduledev"
    (by decide) (by decide) (by decide) (by decide) (by decide)

/-! ## C8 -/

theorem elemRes_strip (env : Env) (u q : String) (st st' : St)
    (h : urlToFilePath env u st = (.ok (some q), st')) :
    elemRes env (.str u) st = (.ok (stripExtension q), st') := by
  simp only [elemRes, toFilePath, h]

theorem rjs_keys (env : Env) (pairs : List (String × JsVal)) :
    ∀ (st st' : St) (m : List (String × String)),
      getRequireJsPaths env pairs st = (.cbOk m, st') →
      m.map Prod.fst = pairs.map Prod.fst := by
  induction pairs with
  | nil =>
    intro st st' m h
    simp only [getRequireJsPaths, rjsGo] at h
    injection h with h1 h2
    injection h1 with h3
    subst h3; rfl
  | cons av rest ih =>
    intro st st' m h
    obtain ⟨a, v⟩ := av
    simp only [getRequireJsPaths, rjsGo] at h
    cases he : elemRes env v st with
    | mk eo st1 =>
      rw [he] at h
      cases eo with
      | thrown e => simp at h
      | typeErrorThrown => simp at h
      | err e => simp at h
      | ok p =>
        simp only at h
        cases hr : rjsGo env rest st1 with
        | mk ro st2 =>
          rw [hr] at h
          cases ro with
          | thrown _ => simp at h
          | typeErrorThrown => simp at h
          | cbErr _ => simp at h
          | cbOk m' =>
            simp only at h
            injection h with h1 h2
            injection h1 with h3
            subst h3
            simp [ih st1 st2 m' hr]

theorem rjs_append_err (env : Env) (pre : List (String × JsVal)) :
    ∀ (a : String) (v : JsVal) (rest : List (String × JsVal))
      (st st₁ st₂ : St) (m : List (String × String)) (e : String),
      getRequireJsPaths env pre st = (.cbOk m, st₁) →
      elemRes env v st₁ = (.err e, st₂) →
      getRequireJsPaths env (pre ++ (a, v) :: rest) st = (.cbErr e, st₂) := by
  induction pre with
  | nil =>
    intro a v rest st st₁ st₂ m e h he
    simp only [getRequireJsPaths, rjsGo] at h
    injection h with h1 h2
    subst h2
    show rjsGo env ((a, v) :: rest) st = (.cbErr e, st₂)
    simp only [rjsGo, he]
  | cons bw pre' ih =>
    intro a v rest st st₁ st₂ m e h he
    obtain ⟨b, w⟩ := bw
    simp only [getRequireJsPaths, rjsGo] at h
    show rjsGo env (((b, w) :: pre') ++ (a, v) :: rest) st = (.cbErr e, st₂)
    simp only [List.cons_append, rjsGo]
    cases hw : elemRes env w st with
    | mk eo st0 =>
      rw [hw] at h
      cases eo with
      | thrown e0 => simp at h
      | typeErrorThrown => simp at h
      | err e0 => simp at h
      | ok p0 =>
        simp only at h
        cases hr : rjsGo env pre' st0 with
        | mk ro st3 =>
          rw [hr] at h
          cases ro with
          | thrown _ => simp at h
          | typeErrorThrown => simp at h
          | cbErr _ => simp at h
          | cbOk m' =>
            simp only at h
            injection h with h1 h2
            subst h2
            have := ih a v rest st0 st3 st₂ m' e hr he
            simp only [getRequireJsPaths] at this
            show (match rjsGo env (pre' ++ (a, v) :: rest) st0 with
              | (RjsOut.cbOk m, st'') => (RjsOut.cbOk ((b, p0) :: m), st'')
              | o => o) = (RjsOut.cbErr e, st₂)
            rw [this]

/-- C8 counterexample: two single-key mappings whose keys differ —
`qqq1` vs `qqq2` — both fail with the very same batch error, so the
error cannot identify which key failed; it names the failing identifier
instead. -/
theorem c8_counterexample :
    getRequireJsPaths envArc
        [("qqq1", .str "nmodule/testModule/rc/nope")] stEmpty =
      (.cbErr "could not find testModule/rc/nope.js in any JAR module",
       stEmpty) ∧
    getRequireJsPaths envArc
        [("qqq2", .str "nmodule/testModule/rc/nope")] stEmpty =
      (.cbErr "could not find testModule/rc/nope.js in any JAR module",
       stEmpty) := by
  refine ⟨by decide, by decide⟩

/-- C8 amended: `getRequireJsPaths` resolves every value of the mapping
(one promise per key), strips the file extension from each resolved
path, and fails the whole batch as soon as any single key's value fails,
with that value's own resolution error — an error naming the failing
identifier, not the key; a fully successful batch maps exactly the
given keys. -/
theorem c8_amended_batch :
    (∀ (env : Env) (u q : String) (st st' : St),
      urlToFilePath env u st = (.ok (some q), st') →
      elemRes env (.str u) st = (.ok (stripExtension q), st')) ∧
    (∀ (env : Env) (pre : List (String × JsVal)) (a : String) (v : JsVal)
      (rest : List (String × JsVal)) (st st₁ st₂ : St)
      (m : List (String × String)) (e : String),
      getRequireJsPaths env pre st = (.cbOk m, st₁) →
      elemRes env v st₁ = (.err e, st₂) →
      getRequireJsPaths env (pre ++ (a, v) :: rest) st = (.cbErr e, st₂)) ∧
    (∀ (env : Env) (pairs : List (String × JsVal)) (st st' : St)
      (m : List (String × String)),
      getRequireJsPaths env pairs st = (.cbOk m, st') →
      m.map Prod.fst = pairs.map Prod.fst) :=
  ⟨fun env u q st st' h => elemRes_strip env u q st st' h,
   fun env pre a v rest st st₁ st₂ m e h he =>
     rjs_append_err env pre a v rest st st₁ st₂ m e h he,
   fun env pairs st st' m h => rjs_keys env pairs st st' m h⟩

/-- Witness for C8: a batch whose only value cannot be resolved fails
with that value's resolution error. -/
theorem c8_witness :
    getRequireJsPaths envArc
        ([] ++ ("qqq1", JsVal.str "nmodule/testModule/rc/nope") :: []) stEmpty =
      (.cbErr "could not find testModule/rc/nope.js in any JAR module",
       stEmpty) :=
  c8_amended_batch.2.1 envArc [] "qqq1" (.str "nmodule/testModule/rc/nope") []
    stEmpty stEmpty stEmpty []
    "could not find testModule/rc/nope.js in any JAR module"
    (by decide) (by decide)

/-! ## Path-normalization lemmas -/

theorem segsCh_slash_cons (cs : List Char) : segsCh ('/' :: cs) = segsCh cs := by
  simp [segsCh, segsChAux]

theorem segsChAux_spec (l : List Char) : ∀ cur : List Char, cur ≠ [] →
    segsChAux cur l =
      (cur.reverse ++ l.takeWhile (· != '/')) :: segsCh (l.dropWhile (· != '/')) := by
  induction l with
  | nil =>
    intro cur hc
    simp [segsChAux, List.isEmpty_iff, hc, segsCh]
  | cons c cs ih =>
    intro cur hc
    by_cases hch : c = '/'
    · subst hch
      have hce : cur.isEmpty = false := by
        simp [List.isEmpty_iff, hc]
      simp [segsChAux, hce, List.takeWhile_cons, List.dropWhile_cons,
        segsCh_slash_cons, segsCh]
    · simp only [segsChAux, if_neg hch]
      rw [ih (c :: cur) (by simp)]
      simp [List.takeWhile_cons, List.dropWhile_cons, hch]

theorem segsCh_cons_ne (c : Char) (cs : List Char) (h : c ≠ '/') :
    segsCh (c :: cs) =
      (c :: cs.takeWhile (· != '/')) :: segsCh (cs.dropWhile (· != '/')) := by
  show segsChAux [] (c :: cs) = _
  simp only [segsChAux, if_neg h]
  rw [segsChAux_spec cs [c] (by simp)]
  simp

theorem takeWhile_append_slash (x y : List Char) :
    (x ++ '/' :: y).takeWhile (· != '/') = x.takeWhile (· != '/') := by
  induction x with
  | nil => simp [List.takeWhile_cons]
  | cons c cs ih =>
    by_cases h : c = '/'
    · subst h; simp [List.takeWhile_cons]
    · simp [List.takeWhile_cons, h, ih]

theorem dropWhile_append_slash (x y : List Char) :
    (x ++ '/' :: y).dropWhile (· != '/') = x.dropWhile (· != '/') ++ '/' :: y := by
  induction x with
  | nil => simp [List.dropWhile_cons]
  | cons c cs ih =>
    by_cases h : c = '/'
    · subst h; simp [List.dropWhile_cons]
    · simp [List.dropWhile_cons, h, ih]

theorem segsCh_append_slash : ∀ (x y : List Char),
    segsCh (x ++ '/' :: y) = segsCh x ++ segsCh y
  | [], y => by
    rw [List.nil_append, segsCh_slash_cons]
    rfl
  | c :: cs, y => by
    by_cases h : c = '/'
    · subst h
      rw [List.cons_append, segsCh_slash_cons, segsCh_slash_cons,
        segsCh_append_slash cs y]
    · rw [List.cons_append, segsCh_cons_ne c _ h, segsCh_cons_ne c cs h,
        takeWhile_append_slash, dropWhile_append_slash,
        segsCh_append_slash (cs.dropWhile (· != '/')) y]
      simp
termination_by x _ => x.length
decreasing_by
  · simp
  · have := (List.dropWhile_sublist (p := (· != '/')) (l := cs)).length_le
    simp
    omega

theorem takeWhile_all (cs : List Char) (h : ∀ d ∈ cs, d ≠ '/') :
    cs.takeWhile (· != '/') = cs := by
  induction cs with
  | nil => rfl
  | cons d ds ih =>
    have hd := h d (List.mem_cons_self ..)
    simp [List.takeWhile_cons, hd,
      ih (fun x hx => h x (List.mem_cons_of_mem d hx))]

theorem dropWhile_all (cs : List Char) (h : ∀ d ∈ cs, d ≠ '/') :
    cs.dropWhile (· != '/') = [] := by
  induction cs with
  | nil => rfl
  | cons d ds ih =>
    have hd := h d (List.mem_cons_self ..)
    simp [List.dropWhile_cons, hd,
      ih (fun x hx => h x (List.mem_cons_of_mem d hx))]

theorem segsCh_single (l : List Char) (hne : l ≠ [])
    (hcl : ∀ d ∈ l, d ≠ '/') : segsCh l = [l] := by
  cases l with
  | nil => exact absurd rfl hne
  | cons c cs =>
    have hc : c ≠ '/' := hcl c (List.mem_cons_self ..)
    rw [segsCh_cons_ne c cs hc,
      takeWhile_all cs (fun d hd => hcl d (List.mem_cons_of_mem c hd)),
      dropWhile_all cs (fun d hd => hcl d (List.mem_cons_of_mem c hd))]
    rfl

theorem segsCh_mem : ∀ (l : List Char), ∀ s ∈ segsCh l, s ≠ [] ∧ ∀ d ∈ s, d ≠ '/'
  | [] => by simp [segsCh, segsChAux]
  | c :: cs => by
    by_cases h : c = '/'
    · subst h; rw [segsCh_slash_cons]; exact segsCh_mem cs
    · rw [segsCh_cons_ne c cs h]
      intro s hs
      rcases List.mem_cons.mp hs with h1 | h1
      · subst h1
        refine ⟨by simp, ?_⟩
        intro d hd
        rcases List.mem_cons.mp hd with h2 | h2
        · subst h2; exact h
        · have := List.mem_takeWhile_imp h2
          simpa using this
      · exact segsCh_mem (cs.dropWhile (· != '/')) s h1
termination_by l => l.length
decreasing_by
  · simp
  · have := (List.dropWhile_sublist (p := (· != '/')) (l := cs)).length_le
    simp
    omega

theorem segsCh_joinSegs : ∀ (L : List (List Char)),
    (∀ s ∈ L, s ≠ [] ∧ ∀ d ∈ s, d ≠ '/') → segsCh (joinSegs L) = L
  | [], _ => rfl
  | [s], h => by
    have hs := h s (List.mem_cons_self ..)
    simp only [joinSegs]
    exact segsCh_single s hs.1 hs.2
  | s :: s₂ :: rest, h => by
    have hs := h s (List.mem_cons_self ..)
    show segsCh (s ++ '/' :: joinSegs (s₂ :: rest)) = s :: s₂ :: rest
    rw [segsCh_append_slash s (joinSegs (s₂ :: rest)),
      segsCh_single s hs.1 hs.2,
      segsCh_joinSegs (s₂ :: rest) (fun t ht => h t (List.mem_cons_of_mem s ht))]
    rfl

theorem segsCh_of_normalized_eq (a b : String)
    (h : normalized a = normalized b) : segsCh a.data = segsCh b.data := by
  have hd : joinSegs (segsCh a.data) = joinSegs (segsCh b.data) :=
    congrArg String.data h
  have ha := segsCh_joinSegs (segsCh a.data) (segsCh_mem a.data)
  have hb := segsCh_joinSegs (segsCh b.data) (segsCh_mem b.data)
  rw [← ha, ← hb, hd]

theorem normalized_append_congr (x e₁ e₂ : String)
    (h : normalized e₁ = normalized e₂) :
    normalized (x ++ "/" ++ e₁) = normalized (x ++ "/" ++ e₂) := by
  show String.mk (joinSegs (segsCh (x ++ "/" ++ e₁).data)) =
    String.mk (joinSegs (segsCh (x ++ "/" ++ e₂).data))
  have h1 : (x ++ "/" ++ e₁).data = x.data ++ '/' :: e₁.data := by
    rw [String.data_append, String.data_append]
    simp
  have h2 : (x ++ "/" ++ e₂).data = x.data ++ '/' :: e₂.data := by
    rw [String.data_append, String.data_append]
    simp
  rw [h1, h2, segsCh_append_slash, segsCh_append_slash,
    segsCh_of_normalized_eq e₁ e₂ h]

theorem tmpTargetDir_congr (nm e₁ e₂ : String)
    (h : normalized e₁ = normalized e₂) :
    tmpTargetDir nm e₁ = tmpTargetDir nm e₂ := by
  unfold tmpTargetDir pathJoin
  exact normalized_append_congr (TMP_ROOT ++ "/" ++ nm) e₁ e₂ h

/-! ## C1 -/

theorem profMatch_normalized (env : Env) (nm mp p : String) (e : ZipEntry)
    (h : profMatch env nm mp p = some e) :
    normalized e.entryName = normalized mp := by
  unfold profMatch at h
  cases hj : lookupA env.jars (profileJarPath env nm p) with
  | none => simp only [hj] at h; exact absurd h (by simp)
  | some zip =>
    simp only [hj] at h
    have := List.find?_some h
    simpa using this

theorem lastO_mem {α : Type} : ∀ (l : List α) (a : α), lastO l = some a → a ∈ l
  | [], _, h => by simp [lastO] at h
  | [b], a, h => by
    simp only [lastO] at h
    injection h with h1
    subst h1
    exact List.mem_cons_self ..
  | b :: c :: rest, a, h => by
    have : lastO (c :: rest) = some a := h
    exact List.mem_cons_of_mem b (lastO_mem (c :: rest) a this)

theorem mem_matchedTargets (env : Env) (nm mp : String) (ps : List String)
    (p : String) (e : ZipEntry) (hp : p ∈ ps)
    (he : profMatch env nm mp p = some e) :
    tmpTargetDir nm e.entryName ∈ matchedTargets env nm mp ps := by
  unfold matchedTargets
  exact List.mem_filterMap.mpr ⟨p, hp, by rw [he]; rfl⟩

theorem matchedTargets_all_eq (env : Env) (nm mp : String) (ps : List String)
    (t : String) (ht : t ∈ matchedTargets env nm mp ps) :
    t = tmpTargetDir nm mp := by
  unfold matchedTargets at ht
  obtain ⟨p, _, hpe⟩ := List.mem_filterMap.mp ht
  cases he : profMatch env nm mp p with
  | none => rw [he] at hpe; simp at hpe
  | some e =>
    rw [he] at hpe
    have h1 : tmpTargetDir nm e.entryName = t := by
      simpa using hpe
    rw [← h1]
    exact tmpTargetDir_congr nm e.entryName mp
      (profMatch_normalized env nm mp p e he)

/-- C1: on the first archive resolution of an identifier whose relative
path only ever matches directory entries (at least one profile matching),
the profile loop extracts the first matching profile's subtree into the
shared temporary directory and keeps searching the remaining profiles in
order: every matching profile's entry is extracted into the same target
directory `tmpTargetDir name path`, the final temp contents at any path
equal the earliest write attempted for it in profile order (later
extractions never overwrite already-materialized files), and the
resolved result is that merged directory path.  The relative path is
taken extension-free (a `.js` path first runs the stripped strategy of
`resolveModulePath`, which is claim C3's subject). -/
theorem c1_directory_merge (env : Env) (mi : ModuleFileInfo)
    (cache : List (String × String))
    (hname : mi.name ≠ "")
    (hjs : sEnds mi.path ".js" = false)
    (hc : lookupA cache mi.fullPath = none)
    (hdirs : ∀ p ∈ RUNTIME_PROFILES,
      ((profMatch env mi.name mi.path p).all (fun e => e.isDirectory)) = true)
    (hsome : ∃ p ∈ RUNTIME_PROFILES,
      (profMatch env mi.name mi.path p).isSome = true) :
    ∃ stF : St,
      getTmpFileFromModuleInfo env mi ⟨cache, []⟩ =
        (.ok (tmpTargetDir mi.name mi.path), stF) ∧
      (∀ p ∈ RUNTIME_PROFILES, ∀ e : ZipEntry,
        profMatch env mi.name mi.path p = some e →
        tmpTargetDir mi.name e.entryName = tmpTargetDir mi.name mi.path) ∧
      (∀ q : String, lookupA stF.tmp q =
        firstW (mergedAttempts env mi.name mi.path RUNTIME_PROFILES) q) ∧
      lookupA stF.cache mi.fullPath = some (tmpTargetDir mi.name mi.path) := by
  have hunfold : getTmpFileFromModuleInfo env mi ⟨cache, []⟩ =
      arcGo env mi.name mi.fullPath mi.path RUNTIME_PROFILES ⟨cache, []⟩ := by
    unfold getTmpFileFromModuleInfo resolveModulePathSt
    simp [hc, hname, hjs]
  obtain ⟨h1, h2, h3⟩ :=
    arcGo_dirs env mi.name mi.fullPath mi.path RUNTIME_PROFILES ⟨cache, []⟩ hdirs
  have hlast : lastO (matchedTargets env mi.name mi.path RUNTIME_PROFILES) =
      some (tmpTargetDir mi.name mi.path) := by
    obtain ⟨p, hp, hps⟩ := hsome
    obtain ⟨e, he⟩ := Option.isSome_iff_exists.mp hps
    have hmem := mem_matchedTargets env mi.name mi.path RUNTIME_PROFILES p e hp he
    cases hmt : matchedTargets env mi.name mi.path RUNTIME_PROFILES with
    | nil => rw [hmt] at hmem; simp at hmem
    | cons t ts =>
      obtain ⟨u, hu⟩ := Option.isSome_iff_exists.mp (lastO_isSome t ts)
      rw [hu]
      have humem : u ∈ matchedTargets env mi.name mi.path RUNTIME_PROFILES := by
        rw [hmt]; exact lastO_mem (t :: ts) u hu
      rw [matchedTargets_all_eq env mi.name mi.path RUNTIME_PROFILES u humem]
  have hres : (arcGo env mi.name mi.fullPath mi.path RUNTIME_PROFILES
      ⟨cache, []⟩).1 = .ok (tmpTargetDir mi.name mi.path) := by
    rw [h1, hlast]
    rfl
  refine ⟨(arcGo env mi.name mi.fullPath mi.path RUNTIME_PROFILES ⟨cache, []⟩).2,
    ?_, ?_, ?_, ?_⟩
  · rw [hunfold, show arcGo env mi.name mi.fullPath mi.path RUNTIME_PROFILES
        ⟨cache, []⟩ =
      ((arcGo env mi.name mi.fullPath mi.path RUNTIME_PROFILES ⟨cache, []⟩).1,
       (arcGo env mi.name mi.fullPath mi.path RUNTIME_PROFILES ⟨cache, []⟩).2)
      from rfl, hres]
  · intro p _ e he
    exact tmpTargetDir_congr mi.name e.entryName mi.path
      (profMatch_normalized env mi.name mi.path p e he)
  · intro q
    rw [h2, lookupA_applyWrites]
    rfl
  · rw [h3, hlast]
    rfl

/-- Witness for C1: the fixture jars both hold the directory `rc/`; the
merge resolves to the shared target and the collision file `both.js`
keeps the earliest (`-ux`) profile's contents. -/
theorem c1_witness :
    ((⟨"testModule/rc", "testModule", "rc"⟩ : ModuleFileInfo).name ≠ "" ∧
     sEnds (⟨"testModule/rc", "testModule", "rc"⟩ : ModuleFileInfo).path ".js"
       = false ∧
     (∀ p ∈ RUNTIME_PROFILES,
       ((profMatch envArc "testModule" "rc" p).all (fun e => e.isDirectory))
         = true) ∧
     (∃ p ∈ RUNTIME_PROFILES,
       (profMatch envArc "testModule" "rc" p).isSome = true)) ∧
    (∃ stF : St,
      getTmpFileFromModuleInfo envArc
          ⟨"testModule/rc", "testModule", "rc"⟩ ⟨[], []⟩ =
        (.ok (tmpTargetDir "testModule" "rc"), stF) ∧
      (∀ p ∈ RUNTIME_PROFILES, ∀ e : ZipEntry,
        profMatch envArc "testModule" "rc" p = some e →
        tmpTargetDir "testModule" e.entryName = tmpTargetDir "testModule" "rc") ∧
      (∀ q : String, lookupA stF.tmp q =
        firstW (mergedAttempts envArc "testModule" "rc" RUNTIME_PROFILES) q) ∧
      lookupA stF.cache "testModule/rc" = some (tmpTargetDir "testModule" "rc")) ∧
    lookupA (getTmpFileFromModuleInfo envArc
        ⟨"testModule/rc", "testModule", "rc"⟩ ⟨[], []⟩).2.tmp
      "niagara-moduledev-tmp/testModule/rc/both.js" = some "ux-both" :=
  ⟨⟨by decide, by decide, by decide, by decide⟩,
   c1_directory_merge envArc ⟨"testModule/rc", "testModule", "rc"⟩ []
     (by decide) (by decide) (by decide) (by decide) (by decide),
   by decide⟩

end NiagaraModuledev
